import Mathlib

/-!
Shallow embedding of the pronostik-backend game model and controller.

Sources:
 - the game controller (GameController: list/get/scoreboard/create/join/
   addTrack/addScore/played handlers);
 - the current game schema (players validator, track subschema, score
   subschema, and the getScoreboard instance method);
 - the alternative schema variant in src/models/game-model.ts whose track
   subschema additionally requires at least 10 score entries.

Player references (Mongo ObjectIds, compared in the source by toString)
are modelled as Nat; embedded-document ids of tracks likewise.  Scores
are JS numbers used with +, -, <= only, modelled as Int.  Optional or
possibly-absent JSON fields are Option.  A thrown JS error is an
Except.error: mongoose save throws a ValidationError when a validator
fails, and property access on undefined (the unguarded track lookup)
throws a TypeError; the catch block of every handler maps the former to
a 400 response and everything else to a 500 response.
-/

/-- Score subdocument: player reference and numeric score. -/
structure GameTrackScore where
  player : Nat
  score : Int
deriving DecidableEq, Repr

/-- Track subdocument: embedded id, name, artists, scores, played flag. -/
structure GameTrack where
  id : Nat
  name : Option String
  artists : List String
  scores : List GameTrackScore
  played : Bool
deriving DecidableEq, Repr

/-- Game document: id, optional name/description, player references, tracks. -/
structure Game where
  id : Nat
  name : Option String
  description : Option String
  players : List Nat
  tracks : List GameTrack
deriving DecidableEq, Repr

/-- One entry of the computed scoreboard: player, aggregate, position.
The position field is absent until assigned after sorting. -/
structure BoardEntry where
  player : Nat
  score : Int
  position : Option Nat
deriving DecidableEq, Repr

/-- Result of getScoreboard: game id plus the ranked board. -/
structure GameScoreboard where
  gameId : Nat
  board : List BoardEntry
deriving DecidableEq, Repr

/-- Aggregate score of one player: the source iterates over the tracks
and, for the score entries of that track whose player matches, adds the
score when the track is played and subtracts it otherwise. -/
def aggregateScore (g : Game) (p : Nat) : Int :=
  g.tracks.foldl
    (fun acc t =>
      (t.scores.filter (fun s => s.player == p)).foldl
        (fun a s => if t.played then a + s.score else a - s.score) acc)
    0

/-- The mathematical contribution of a single track to a player's
aggregate, used to relate the accumulator loop to a plain sum. -/
def trackContribution (p : Nat) (t : GameTrack) : Int :=
  ((t.scores.filter (fun s => s.player == p)).map
    (fun s => if t.played then s.score else -s.score)).sum

/-- Stable descending insertion: the new entry goes in front of the first
element whose score is not strictly greater.  Together with insertion
from the tail this reproduces the ECMAScript stable sort with comparator
(a, b) => b.score - a.score used on the board. -/
def insertBoard (e : BoardEntry) : List BoardEntry → List BoardEntry
  | [] => [e]
  | x :: xs => if e.score < x.score then x :: insertBoard e xs else e :: x :: xs

/-- Stable sort of the board by score, descending. -/
def sortBoard : List BoardEntry → List BoardEntry
  | [] => []
  | x :: xs => insertBoard x (sortBoard xs)

/-- Position assignment after sorting: entry at offset i gets position
k + i (the source starts at 1). -/
def assignPositions (k : Nat) : List BoardEntry → List BoardEntry
  | [] => []
  | e :: es => { e with position := some k } :: assignPositions (k + 1) es

/-- The getScoreboard instance method of the game schema: one entry per
element of the players array, sorted by descending aggregate, positions
1-based after sorting. -/
def getScoreboard (g : Game) : GameScoreboard :=
  { gameId := g.id
    board := assignPositions 1
      (sortBoard (g.players.map
        (fun p => { player := p, score := aggregateScore g p, position := none }))) }

/-- Score subschema validation: score required with min 0 and max 10.
The player reference cannot be absent in this embedding. -/
def validScore (s : GameTrackScore) : Bool :=
  decide (0 ≤ s.score) && decide (s.score ≤ 10)

/-- Track subschema validation of the current schema: name required
(mongoose rejects a missing or empty string), artists non-null with at
least one entry, and every score subdocument valid. -/
def validTrack (t : GameTrack) : Bool :=
  (match t.name with
   | some s => !s.isEmpty
   | none => false)
  && decide (1 ≤ t.artists.length)
  && t.scores.all validScore

/-- Game schema validation of the current schema: the players validator
requires a non-null array with at least one entry, and every embedded
track must validate. -/
def validGame (g : Game) : Bool :=
  decide (1 ≤ g.players.length) && g.tracks.all validTrack

/-- Track subschema validation of the variant in src/models/game-model.ts:
same as the current one except that the scores validator requires the
array to hold at least 10 entries. -/
def validTrackV1 (t : GameTrack) : Bool :=
  (match t.name with
   | some s => !s.isEmpty
   | none => false)
  && decide (1 ≤ t.artists.length)
  && decide (10 ≤ t.scores.length)
  && t.scores.all validScore

/-- Game schema validation of the src/models/game-model.ts variant. -/
def validGameV1 (g : Game) : Bool :=
  decide (1 ≤ g.players.length) && g.tracks.all validTrackV1

example :
    getScoreboard
      { id := 1, name := some "Quiz Night", description := none, players := [10, 20],
        tracks := [{ id := 5, name := some "Song1", artists := ["Band1"],
                     scores := [{ player := 20, score := 7 }], played := false }] } =
    { gameId := 1,
      board := [{ player := 10, score := 0, position := some 1 },
                { player := 20, score := -7, position := some 2 }] } := by
  decide

/-- HTTP responses produced by the game controller handlers, restricted
to the status and discriminating body fields the spec talks about. -/
inductive Resp where
  /-- 201 with the created game id. -/
  | created (id : Nat)
  /-- 200 with the game id. -/
  | success (id : Nat)
  /-- 404 with error not_found. -/
  | notFound
  /-- 400 with error invalid_request (handler-side required-field check). -/
  | invalidRequest
  /-- 400 built from a translated mongoose ValidationError. -/
  | validationFailed
  /-- 500 generic server error from the final catch branch. -/
  | serverError
deriving DecidableEq, Repr

/-- HTTP status code of each response shape. -/
def statusOf : Resp → Nat
  | .created _ => 201
  | .success _ => 200
  | .notFound => 404
  | .invalidRequest => 400
  | .validationFailed => 400
  | .serverError => 500

/-- Errors a handler body can throw: a TypeError from accessing a
property of undefined, or a mongoose ValidationError from save. -/
inductive JsThrow where
  | typeError
  | validation
deriving DecidableEq, Repr

/-- The catch block shared by the mutating handlers: a ValidationError
is translated to a 400 response, anything else to a generic 500; the
stored state is left as it was. -/
def runCatch (db : List Game) : Except JsThrow (Resp × List Game) → Resp × List Game
  | .ok r => r
  | .error .validation => (.validationFailed, db)
  | .error .typeError => (.serverError, db)

/-- Model.findById: first stored game with the requested id. -/
def findById (db : List Game) (gid : Nat) : Option Game :=
  db.find? (fun g => g.id == gid)

/-- Document save: the stored game with the same id is replaced. -/
def saveGame (db : List Game) (g' : Game) : List Game :=
  db.map (fun g => if g.id == g'.id then g' else g)

/-- A save re-runs every schema validator on the whole document and
throws a ValidationError when one fails. -/
def trySave (db : List Game) (g' : Game) : Except JsThrow (List Game) :=
  if validGame g' then .ok (saveGame db g') else .error .validation

/-- A save validated against the src/models/game-model.ts schema variant
(scores cardinality at least 10 per track). -/
def trySaveV1 (db : List Game) (g' : Game) : Except JsThrow (List Game) :=
  if validGameV1 g' then .ok (saveGame db g') else .error .validation

/-- The join mutation: the acting player is appended to players, with no
de-duplication. -/
def joinGame (g : Game) (p : Nat) : Game :=
  { g with players := g.players ++ [p] }

/-- Array.prototype.find followed by scores.push: only the first track
with the requested id receives the new score entry. -/
def pushScoreFirst : List GameTrack → Nat → GameTrackScore → List GameTrack
  | [], _, _ => []
  | t :: ts, tid, s =>
    if t.id == tid then { t with scores := t.scores ++ [s] } :: ts
    else t :: pushScoreFirst ts tid s

/-- The played assignment of the source is req.body.played OR NOT
track.played with the JS or: an absent value and an explicit false are
both falsy, so both take the toggle branch; only true short-circuits. -/
def jsPlayedValue (body : Option Bool) (cur : Bool) : Bool :=
  match body with
  | some b => b || !cur
  | none => !cur

/-- Array.prototype.find followed by the played assignment: only the
first track with the requested id is updated. -/
def setPlayedFirst : List GameTrack → Nat → Option Bool → List GameTrack
  | [], _, _ => []
  | t :: ts, tid, b =>
    if t.id == tid then { t with played := jsPlayedValue b t.played } :: ts
    else t :: setPlayedFirst ts tid b

/-- POST /games: create a game whose players array is exactly the acting
user; the fresh document id is a parameter. The image field of the
request body has no schema counterpart and is dropped. -/
def createHandler (db : List Game) (freshId : Nat) (name description : Option String)
    (authUser : Nat) : Resp × List Game :=
  runCatch db
    (let g : Game :=
      { id := freshId, name := name, description := description,
        players := [authUser], tracks := [] }
     if validGame g then .ok (.created g.id, db ++ [g]) else .error .validation)

/-- PUT /games/:gameId/join: load the game (404 when absent), append the
acting user to players, save. -/
def joinHandler (db : List Game) (gid : Nat) (authUser : Nat) : Resp × List Game :=
  runCatch db
    (match findById db gid with
     | none => .ok (.notFound, db)
     | some g =>
       let g' := joinGame g authUser
       (trySave db g').map (fun db' => (.success g.id, db')))

/-- POST /games/:gameId/tracks: load the game (404 when absent), push a
new track with the body's name and artists, default scores and played,
save. The fresh embedded id is a parameter. -/
def addTrackHandler (db : List Game) (gid : Nat) (freshTid : Nat)
    (name : Option String) (artists : List String) : Resp × List Game :=
  runCatch db
    (match findById db gid with
     | none => .ok (.notFound, db)
     | some g =>
       let g' := { g with
         tracks := g.tracks ++
           [{ id := freshTid, name := name, artists := artists,
              scores := [], played := false }] }
       (trySave db g').map (fun db' => (.success g.id, db')))

/-- PUT /games/:gameId/tracks/:trackId/score: reject a null or undefined
score with 400 invalid_request before the lookup; 404 when the game is
absent; find the track (property access on undefined throws a TypeError
when no track matches); push the score; save. -/
def addScoreHandler (db : List Game) (gid tid : Nat) (authUser : Nat)
    (score : Option Int) : Resp × List Game :=
  runCatch db
    (match score with
     | none => .ok (.invalidRequest, db)
     | some sc =>
       match findById db gid with
       | none => .ok (.notFound, db)
       | some g =>
         match g.tracks.find? (fun t => t.id == tid) with
         | none => .error .typeError
         | some _ =>
           let g' := { g with
             tracks := pushScoreFirst g.tracks tid { player := authUser, score := sc } }
           (trySave db g').map (fun db' => (.success g.id, db')))

/-- PUT /games/:gameId/tracks/:trackId/played: 404 when the game is
absent; find the track (TypeError on the assignment when none matches);
set or toggle its played flag; save. -/
def playedHandler (db : List Game) (gid tid : Nat) (body : Option Bool) :
    Resp × List Game :=
  runCatch db
    (match findById db gid with
     | none => .ok (.notFound, db)
     | some g =>
       match g.tracks.find? (fun t => t.id == tid) with
       | none => .error .typeError
       | some _ =>
         let g' := { g with tracks := setPlayedFirst g.tracks tid body }
         (trySave db g').map (fun db' => (.success g.id, db')))

/-- Observation helper: the track with the given id inside the stored
game with the given id. -/
def trackInDb (db : List Game) (gid tid : Nat) : Option GameTrack :=
  (findById db gid).bind (fun g => g.tracks.find? (fun t => t.id == tid))

/-- The player invariant of the spec over the whole store. -/
def playersInv (db : List Game) : Prop :=
  ∀ g ∈ db, 1 ≤ g.players.length

/-- Example game used by concrete witnesses. -/
def exGame : Game :=
  { id := 1, name := some "Quiz Night", description := none, players := [10],
    tracks := [{ id := 5, name := some "Song1", artists := ["Band1"],
                 scores := [], played := false }] }

example : validGame exGame = true := by decide

example :
    trackInDb (playedHandler [exGame] 1 5 (some false)).2 1 5 =
      some { id := 5, name := some "Song1", artists := ["Band1"],
             scores := [], played := true } := by decide

example : (addScoreHandler [exGame] 1 5 22 (some 11)).1 = .validationFailed := by decide
example : (addScoreHandler [exGame] 1 5 22 (some 10)).1 = .success 1 := by decide
example : (addScoreHandler [exGame] 1 9 22 (some 3)).1 = .serverError := by decide
example : (addScoreHandler [exGame] 1 5 22 none).1 = .invalidRequest := by decide

theorem foldl_signed_eq_add_sum (played : Bool) (l : List GameTrackScore) (acc : Int) :
    l.foldl (fun a s => if played then a + s.score else a - s.score) acc =
      acc + (l.map (fun s => if played then s.score else -s.score)).sum := by
  induction l generalizing acc with
  | nil => simp
  | cons s ss ih =>
    simp only [List.foldl_cons, List.map_cons, List.sum_cons, ih]
    cases played <;> simp <;> omega

theorem aggregateScore_loop (p : Nat) (l : List GameTrack) (acc : Int) :
    l.foldl
      (fun a t =>
        (t.scores.filter (fun s => s.player == p)).foldl
          (fun b s => if t.played then b + s.score else b - s.score) a) acc
      = acc + (l.map (trackContribution p)).sum := by
  induction l generalizing acc with
  | nil => simp
  | cons t ts ih =>
    rw [List.foldl_cons, ih]
    simp only [foldl_signed_eq_add_sum, List.map_cons, List.sum_cons, trackContribution]
    omega

/-- The accumulator loop of getScoreboard computes a plain signed sum. -/
theorem aggregateScore_eq_sum (g : Game) (p : Nat) :
    aggregateScore g p = (g.tracks.map (trackContribution p)).sum := by
  simpa using aggregateScore_loop p g.tracks 0

theorem mem_insertBoard {e x : BoardEntry} {l : List BoardEntry}
    (h : x ∈ insertBoard e l) : x = e ∨ x ∈ l := by
  induction l with
  | nil => simpa [insertBoard] using h
  | cons y ys ih =>
    simp only [insertBoard] at h
    split at h
    · rcases List.mem_cons.mp h with h' | h'
      · exact Or.inr (h' ▸ List.mem_cons_self y ys)
      · rcases ih h' with h'' | h''
        · exact Or.inl h''
        · exact Or.inr (List.mem_cons_of_mem y h'')
    · rcases List.mem_cons.mp h with h' | h'
      · exact Or.inl h'
      · exact Or.inr h'

theorem insertBoard_perm (e : BoardEntry) (l : List BoardEntry) :
    (insertBoard e l).Perm (e :: l) := by
  induction l with
  | nil => simp [insertBoard]
  | cons x xs ih =>
    simp only [insertBoard]
    split
    · exact ((ih.cons x).trans (List.Perm.swap e x xs))
    · exact List.Perm.refl _

theorem pairwise_insertBoard (e : BoardEntry) {l : List BoardEntry}
    (h : l.Pairwise (fun a b => b.score ≤ a.score)) :
    (insertBoard e l).Pairwise (fun a b => b.score ≤ a.score) := by
  induction l with
  | nil => simp [insertBoard]
  | cons x xs ih =>
    rcases List.pairwise_cons.mp h with ⟨hx, hxs⟩
    simp only [insertBoard]
    split
    · refine List.pairwise_cons.mpr ⟨?_, ih hxs⟩
      intro y hy
      rcases mem_insertBoard hy with rfl | hy'
      · exact le_of_lt (by assumption)
      · exact hx y hy'
    · refine List.pairwise_cons.mpr ⟨?_, h⟩
      intro y hy
      rcases List.mem_cons.mp hy with rfl | hy'
      · exact le_of_not_lt (by assumption)
      · exact le_trans (hx y hy') (le_of_not_lt (by assumption))

theorem filter_insertBoard (e : BoardEntry) (l : List BoardEntry) (c : Int) :
    (insertBoard e l).filter (fun x => x.score == c) =
      if e.score == c then e :: l.filter (fun x => x.score == c)
      else l.filter (fun x => x.score == c) := by
  induction l with
  | nil =>
    by_cases hc : e.score = c
    · simp [insertBoard, List.filter_cons, hc]
    · have hc' : (e.score == c) = false := by simpa using hc
      simp [insertBoard, List.filter_cons, hc']
  | cons x xs ih =>
    simp only [insertBoard]
    split
    · rename_i hlt
      by_cases hc : e.score = c
      · have hx : (x.score == c) = false := by
          simp only [beq_eq_false_iff_ne, ne_eq]
          omega
        simp [List.filter_cons, hx, ih, hc]
      · have : (e.score == c) = false := by simpa using hc
        simp [List.filter_cons, ih, this]
    · by_cases hc : e.score = c
      · simp [List.filter_cons, hc]
      · have : (e.score == c) = false := by simpa using hc
        simp [List.filter_cons, this]

theorem sortBoard_perm (l : List BoardEntry) : (sortBoard l).Perm l := by
  induction l with
  | nil => simp [sortBoard]
  | cons x xs ih => exact (insertBoard_perm x (sortBoard xs)).trans (ih.cons x)

theorem pairwise_sortBoard (l : List BoardEntry) :
    (sortBoard l).Pairwise (fun a b => b.score ≤ a.score) := by
  induction l with
  | nil => simp [sortBoard]
  | cons x xs ih => exact pairwise_insertBoard x ih

theorem filter_sortBoard (l : List BoardEntry) (c : Int) :
    (sortBoard l).filter (fun x => x.score == c) = l.filter (fun x => x.score == c) := by
  induction l with
  | nil => rfl
  | cons x xs ih =>
    rw [sortBoard, filter_insertBoard, ih, List.filter_cons]

theorem length_assignPositions (k : Nat) (l : List BoardEntry) :
    (assignPositions k l).length = l.length := by
  induction l generalizing k with
  | nil => rfl
  | cons e es ih => simp [assignPositions, ih]

theorem mem_assignPositions {k : Nat} {l : List BoardEntry} {y : BoardEntry}
    (h : y ∈ assignPositions k l) :
    ∃ x ∈ l, y.player = x.player ∧ y.score = x.score := by
  induction l generalizing k with
  | nil => simp [assignPositions] at h
  | cons e es ih =>
    simp only [assignPositions, List.mem_cons] at h
    rcases h with rfl | h'
    · exact ⟨e, List.mem_cons_self e es, rfl, rfl⟩
    · rcases ih h' with ⟨x, hx, h1, h2⟩
      exact ⟨x, List.mem_cons_of_mem e hx, h1, h2⟩

theorem pairwise_assignPositions (k : Nat) {l : List BoardEntry}
    (h : l.Pairwise (fun a b => b.score ≤ a.score)) :
    (assignPositions k l).Pairwise (fun a b => b.score ≤ a.score) := by
  induction l generalizing k with
  | nil => simp [assignPositions]
  | cons e es ih =>
    rcases List.pairwise_cons.mp h with ⟨he, hes⟩
    refine List.pairwise_cons.mpr ⟨?_, ih (k + 1) hes⟩
    intro y hy
    rcases mem_assignPositions hy with ⟨x, hx, _, h2⟩
    simpa [h2] using he x hx

theorem map_pairs_assignPositions (k : Nat) (l : List BoardEntry) :
    (assignPositions k l).map (fun e => (e.player, e.score)) =
      l.map (fun e => (e.player, e.score)) := by
  induction l generalizing k with
  | nil => rfl
  | cons e es ih => simp [assignPositions, ih]

theorem map_position_assignPositions (k : Nat) (l : List BoardEntry) :
    (assignPositions k l).map (fun e => e.position) =
      (List.range l.length).map (fun i => some (k + i)) := by
  induction l generalizing k with
  | nil => rfl
  | cons e es ih =>
    simp only [assignPositions, List.map_cons, ih, List.length_cons,
      List.range_succ_eq_map, List.map_map]
    congr 1
    apply List.map_congr_left
    intro i _
    simp only [Function.comp_apply, Nat.succ_eq_add_one]
    exact congrArg some (by omega)

theorem filter_player_assignPositions (k : Nat) (l : List BoardEntry) (c : Int) :
    ((assignPositions k l).filter (fun e => e.score == c)).map (fun e => e.player) =
      (l.filter (fun e => e.score == c)).map (fun e => e.player) := by
  induction l generalizing k with
  | nil => rfl
  | cons e es ih =>
    simp only [assignPositions, List.filter_cons]
    split <;> simp [ih]

theorem countP_player_assignPositions (k : Nat) (l : List BoardEntry) (p : Nat) :
    (assignPositions k l).countP (fun e => e.player == p) =
      l.countP (fun e => e.player == p) := by
  induction l generalizing k with
  | nil => rfl
  | cons e es ih => simp [assignPositions, List.countP_cons, ih]

theorem score_eq_aggregate {g : Game} {e : BoardEntry}
    (h : e ∈ (getScoreboard g).board) : e.score = aggregateScore g e.player := by
  simp only [getScoreboard] at h
  rcases mem_assignPositions h with ⟨x, hx, h1, h2⟩
  have hx' := ((sortBoard_perm _).mem_iff).mp hx
  rcases List.mem_map.mp hx' with ⟨p, _, rfl⟩
  rw [h1, h2]

theorem countP_player_map (g : Game) (p : Nat) (l : List Nat) :
    (l.map (fun q => BoardEntry.mk q (aggregateScore g q) none)).countP
        (fun e => e.player == p) = l.count p := by
  induction l with
  | nil => rfl
  | cons q qs ih => simp [List.countP_cons, List.count_cons, ih]

theorem filter_player_map (g : Game) (c : Int) (l : List Nat) :
    ((l.map (fun q => BoardEntry.mk q (aggregateScore g q) none)).filter
        (fun e => e.score == c)).map (fun e => e.player) =
      l.filter (fun q => aggregateScore g q == c) := by
  induction l with
  | nil => rfl
  | cons q qs ih =>
    simp only [List.map_cons, List.filter_cons]
    by_cases hc : (aggregateScore g q == c) = true
    · simp only [hc, if_pos]
      simp [ih]
    · simp only [hc, if_neg]
      simp [ih, hc]

theorem validScore_iff (p : Nat) (sc : Int) :
    validScore { player := p, score := sc } = true ↔ 0 ≤ sc ∧ sc ≤ 10 := by
  simp [validScore]

theorem find?_cons_pos_track {x : GameTrack} {tid : Nat} (xs : List GameTrack)
    (hc : (x.id == tid) = true) :
    (x :: xs).find? (fun y => y.id == tid) = some x :=
  List.find?_cons_of_pos (p := fun y => y.id == tid) xs hc

theorem find?_cons_neg_track {x : GameTrack} {tid : Nat} (xs : List GameTrack)
    (hc : ¬ (x.id == tid) = true) :
    (x :: xs).find? (fun y => y.id == tid) = xs.find? (fun y => y.id == tid) :=
  List.find?_cons_of_neg (p := fun y => y.id == tid) xs hc

theorem find?_cons_pos_game {x : Game} {gid : Nat} (xs : List Game)
    (hc : (x.id == gid) = true) :
    (x :: xs).find? (fun y => y.id == gid) = some x :=
  List.find?_cons_of_pos (p := fun y => y.id == gid) xs hc

theorem find?_cons_neg_game {x : Game} {gid : Nat} (xs : List Game)
    (hc : ¬ (x.id == gid) = true) :
    (x :: xs).find? (fun y => y.id == gid) = xs.find? (fun y => y.id == gid) :=
  List.find?_cons_of_neg (p := fun y => y.id == gid) xs hc

theorem validGame_players {g : Game} (h : validGame g = true) :
    1 ≤ g.players.length := by
  simp only [validGame, Bool.and_eq_true, decide_eq_true_eq] at h
  exact h.1

theorem all_validTrack_pushScoreFirst {l : List GameTrack} {tid : Nat} {t : GameTrack}
    (s : GameTrackScore)
    (hfind : l.find? (fun x => x.id == tid) = some t)
    (hall : l.all validTrack = true) :
    (pushScoreFirst l tid s).all validTrack = validScore s := by
  induction l with
  | nil => simp at hfind
  | cons x xs ih =>
    simp only [List.all_cons, Bool.and_eq_true] at hall
    obtain ⟨hx, hxs⟩ := hall
    by_cases hc : (x.id == tid) = true
    · simp only [pushScoreFirst, if_pos hc, List.all_cons, hxs, Bool.and_true]
      simp only [validTrack, List.all_append, List.all_cons, List.all_nil,
        Bool.and_true] at hx ⊢
      simp only [Bool.and_eq_true] at hx
      obtain ⟨hab, hsc⟩ := hx
      simp [hab, hsc]
    · rw [find?_cons_neg_track xs hc] at hfind
      simp only [pushScoreFirst, if_neg hc, List.all_cons, hx, Bool.true_and]
      exact ih hfind hxs

theorem all_validTrack_setPlayedFirst {l : List GameTrack} (tid : Nat) (b : Option Bool)
    (hall : l.all validTrack = true) :
    (setPlayedFirst l tid b).all validTrack = true := by
  induction l with
  | nil => rfl
  | cons x xs ih =>
    simp only [List.all_cons, Bool.and_eq_true] at hall
    obtain ⟨hx, hxs⟩ := hall
    simp only [setPlayedFirst]
    split
    · simp only [List.all_cons, hxs, Bool.and_true]
      exact hx
    · simp only [List.all_cons, hx, Bool.true_and]
      exact ih hxs

theorem find?_pushScoreFirst {l : List GameTrack} {tid : Nat} {t : GameTrack}
    (s : GameTrackScore)
    (hfind : l.find? (fun x => x.id == tid) = some t) :
    (pushScoreFirst l tid s).find? (fun x => x.id == tid) =
      some { t with scores := t.scores ++ [s] } := by
  induction l with
  | nil => simp at hfind
  | cons x xs ih =>
    by_cases hc : (x.id == tid) = true
    · rw [find?_cons_pos_track xs hc] at hfind
      injection hfind with h
      subst h
      simp only [pushScoreFirst, if_pos hc]
      exact find?_cons_pos_track xs hc
    · rw [find?_cons_neg_track xs hc] at hfind
      simp only [pushScoreFirst, if_neg hc]
      rw [find?_cons_neg_track (pushScoreFirst xs tid s) hc]
      exact ih hfind

theorem find?_setPlayedFirst {l : List GameTrack} {tid : Nat} {t : GameTrack}
    (b : Option Bool)
    (hfind : l.find? (fun x => x.id == tid) = some t) :
    (setPlayedFirst l tid b).find? (fun x => x.id == tid) =
      some { t with played := jsPlayedValue b t.played } := by
  induction l with
  | nil => simp at hfind
  | cons x xs ih =>
    by_cases hc : (x.id == tid) = true
    · rw [find?_cons_pos_track xs hc] at hfind
      injection hfind with h
      subst h
      simp only [setPlayedFirst, if_pos hc]
      exact find?_cons_pos_track xs hc
    · rw [find?_cons_neg_track xs hc] at hfind
      simp only [setPlayedFirst, if_neg hc]
      rw [find?_cons_neg_track (setPlayedFirst xs tid b) hc]
      exact ih hfind

theorem validGame_pushScore {g : Game} {tid : Nat} {t : GameTrack} (s : GameTrackScore)
    (hfind : g.tracks.find? (fun x => x.id == tid) = some t)
    (hv : validGame g = true) :
    validGame { g with tracks := pushScoreFirst g.tracks tid s } = validScore s := by
  simp only [validGame] at hv ⊢
  simp only [Bool.and_eq_true] at hv
  obtain ⟨h1, h2⟩ := hv
  rw [all_validTrack_pushScoreFirst s hfind h2, h1]
  simp

theorem validGame_setPlayed {g : Game} (tid : Nat) (b : Option Bool)
    (hv : validGame g = true) :
    validGame { g with tracks := setPlayedFirst g.tracks tid b } = true := by
  simp only [validGame] at hv ⊢
  simp only [Bool.and_eq_true] at hv
  obtain ⟨h1, h2⟩ := hv
  rw [all_validTrack_setPlayedFirst tid b h2, h1]
  simp

theorem findById_saveGame {db : List Game} {g : Game} (g' : Game) (gid : Nat)
    (h : findById db gid = some g) (hid : g'.id = g.id) :
    findById (saveGame db g') gid = some g' := by
  induction db with
  | nil => simp [findById] at h
  | cons x xs ih =>
    by_cases hc : (x.id == gid) = true
    · rw [findById, find?_cons_pos_game xs hc] at h
      injection h with h
      subst h
      have hcc : (x.id == g'.id) = true := by
        simp only [beq_iff_eq] at *
        omega
      simp only [findById, saveGame, List.map_cons, if_pos hcc]
      refine find?_cons_pos_game _ ?_
      simp only [beq_iff_eq] at *
      omega
    · rw [findById, find?_cons_neg_game xs hc] at h
      have hgid : (g.id == gid) = true :=
        List.find?_some (p := fun (y : Game) => y.id == gid) h
      have hxg : ¬ ((x.id == g'.id) = true) := by
        simp only [beq_iff_eq] at hc hgid ⊢
        omega
      simp only [findById, saveGame, List.map_cons, if_neg hxg]
      rw [find?_cons_neg_game _ hc]
      exact ih h

theorem playersInv_saveGame {db : List Game} {g' : Game}
    (h : playersInv db) (hg : 1 ≤ g'.players.length) :
    playersInv (saveGame db g') := by
  intro g hmem
  simp only [saveGame, List.mem_map] at hmem
  obtain ⟨x, hx, hEq⟩ := hmem
  by_cases hc : (x.id == g'.id) = true
  · rw [if_pos hc] at hEq
    exact hEq ▸ hg
  · rw [if_neg hc] at hEq
    exact hEq ▸ h x hx

theorem playersInv_trySave {db db' : List Game} {g' : Game}
    (h : playersInv db) (hs : trySave db g' = .ok db') :
    playersInv db' := by
  unfold trySave at hs
  split at hs
  · injection hs with hs
    subst hs
    exact playersInv_saveGame h (validGame_players (by assumption))
  · cases hs

/-- C1: for every game, getScoreboard returns one board entry per element
of the players array (as a permutation of the per-player aggregate list
and with matching length), every entry carries the aggregate of its
player, that aggregate is the signed sum over tracks (+score when played,
-score when not) of the score entries of that player, entries are sorted
by aggregate descending, and positions are the 1-based indices after
sorting. -/
theorem c1_scoreboard_correct (g : Game) :
    ((getScoreboard g).board.map (fun e => (e.player, e.score))).Perm
        (g.players.map (fun p => (p, aggregateScore g p)))
  ∧ (getScoreboard g).board.length = g.players.length
  ∧ (getScoreboard g).board.all (fun e => e.score == aggregateScore g e.player) = true
  ∧ (getScoreboard g).board.Pairwise (fun a b => b.score ≤ a.score)
  ∧ (getScoreboard g).board.map (fun e => e.position)
      = (List.range (getScoreboard g).board.length).map (fun i => some (i + 1))
  ∧ ∀ p : Nat, aggregateScore g p = (g.tracks.map (trackContribution p)).sum := by
  refine ⟨?_, ?_, ?_, ?_, ?_, fun p => aggregateScore_eq_sum g p⟩
  · simp only [getScoreboard]
    rw [map_pairs_assignPositions]
    refine ((sortBoard_perm _).map _).trans ?_
    rw [List.map_map]
    exact List.Perm.refl _
  · simp only [getScoreboard]
    rw [length_assignPositions, (sortBoard_perm _).length_eq, List.length_map]
  · rw [List.all_eq_true]
    intro e he
    exact beq_iff_eq.mpr (score_eq_aggregate he)
  · simp only [getScoreboard]
    exact pairwise_assignPositions 1 (pairwise_sortBoard _)
  · simp only [getScoreboard]
    rw [map_position_assignPositions, length_assignPositions]
    exact List.map_congr_left (fun i _ => congrArg some (by omega))

/-- C9: the scoreboard calculator is deterministic, and among players
whose aggregates are equal the board preserves the original players
array order (the sort is stable): for every aggregate value, the players
carried by the board entries with that aggregate are exactly the players
with that aggregate in original order. -/
theorem c9_deterministic_stable (g : Game) :
    getScoreboard g = getScoreboard g
  ∧ ∀ c : Int,
      ((getScoreboard g).board.filter (fun e => e.score == c)).map (fun e => e.player)
        = g.players.filter (fun p => aggregateScore g p == c) := by
  refine ⟨rfl, fun c => ?_⟩
  simp only [getScoreboard]
  rw [filter_player_assignPositions, filter_sortBoard]
  exact filter_player_map g c g.players

/-- C6: join is not idempotent: joining a player already present appends
a second reference, the scoreboard then holds at least two entries for
that player, and each such entry carries the full aggregate of that
player's scores. -/
theorem c6_join_appends_duplicate (g : Game) (p : Nat) (h : p ∈ g.players) :
    2 ≤ (joinGame g p).players.count p
  ∧ 2 ≤ ((getScoreboard (joinGame g p)).board.filter (fun e => e.player == p)).length
  ∧ ∀ e ∈ (getScoreboard (joinGame g p)).board,
      e.player = p → e.score = aggregateScore g p := by
  have hcount : 2 ≤ (joinGame g p).players.count p := by
    simp only [joinGame]
    rw [List.count_append]
    have h1 : 1 ≤ g.players.count p := List.one_le_count_iff.mpr h
    have h2 : List.count p [p] = 1 := List.count_singleton_self p
    omega
  refine ⟨hcount, ?_, ?_⟩
  · rw [← List.countP_eq_length_filter]
    simp only [getScoreboard]
    rw [countP_player_assignPositions, (sortBoard_perm _).countP_eq, countP_player_map]
    exact hcount
  · intro e he hep
    have hs := score_eq_aggregate he
    rw [hs, hep]
    rfl

/-- C8: an add-score request with a null or undefined score is answered
with 400 invalid_request before the game lookup, for every store and
identifiers, and the store is unchanged. -/
theorem c8_missing_score_rejected (db : List Game) (gid tid uid : Nat) :
    (addScoreHandler db gid tid uid none).1 = Resp.invalidRequest
  ∧ statusOf (addScoreHandler db gid tid uid none).1 = 400
  ∧ (addScoreHandler db gid tid uid none).2 = db :=
  ⟨rfl, rfl, rfl⟩

/-- C5: with the game found, the track found and the rest of the document
valid, an add-score save succeeds exactly when 0 <= score <= 10, and an
out-of-bounds score yields the translated ValidationError response (400)
with the store unchanged. -/
theorem c5_score_bounds (db : List Game) (gid tid uid : Nat) (sc : Int)
    (g : Game) (t : GameTrack)
    (hg : findById db gid = some g)
    (ht : g.tracks.find? (fun x => x.id == tid) = some t)
    (hv : validGame g = true) :
    ((addScoreHandler db gid tid uid (some sc)).1 = Resp.success g.id ↔ (0 ≤ sc ∧ sc ≤ 10))
  ∧ (¬ (0 ≤ sc ∧ sc ≤ 10) →
      (addScoreHandler db gid tid uid (some sc)).1 = Resp.validationFailed
      ∧ (addScoreHandler db gid tid uid (some sc)).2 = db) := by
  have hval : validGame { g with tracks := pushScoreFirst g.tracks tid { player := uid, score := sc } }
      = validScore { player := uid, score := sc } := validGame_pushScore _ ht hv
  have hred : addScoreHandler db gid tid uid (some sc) =
      runCatch db
        ((trySave db { g with tracks := pushScoreFirst g.tracks tid { player := uid, score := sc } }).map
          (fun db' => (Resp.success g.id, db'))) := by
    simp only [addScoreHandler, hg, ht]
  rw [hred]
  by_cases hb : 0 ≤ sc ∧ sc ≤ 10
  · have htrue : validScore { player := uid, score := sc } = true :=
      (validScore_iff uid sc).mpr hb
    have hsave : trySave db { g with tracks := pushScoreFirst g.tracks tid { player := uid, score := sc } } =
        Except.ok (saveGame db { g with tracks := pushScoreFirst g.tracks tid { player := uid, score := sc } }) := by
      rw [trySave, hval, htrue]
      simp
    rw [hsave]
    exact ⟨⟨fun _ => hb, fun _ => rfl⟩, fun hcontra => absurd hb hcontra⟩
  · have hfalse : validScore { player := uid, score := sc } = false := by
      cases hvs : validScore { player := uid, score := sc } with
      | false => rfl
      | true => exact absurd ((validScore_iff uid sc).mp hvs) hb
    have hsave : trySave db { g with tracks := pushScoreFirst g.tracks tid { player := uid, score := sc } } =
        Except.error JsThrow.validation := by
      rw [trySave, hval, hfalse]
      simp
    rw [hsave]
    refine ⟨⟨fun hx => ?_, fun hx => absurd hx hb⟩, fun _ => ⟨rfl, rfl⟩⟩
    exact Resp.noConfusion (show Resp.validationFailed = Resp.success g.id from hx)

/-- C5 witness: on the example store the boundary score 10 is accepted. -/
theorem c5_witness :
    ((addScoreHandler [exGame] 1 5 22 (some 10)).1 = Resp.success 1 ↔
        (0 ≤ (10 : Int) ∧ (10 : Int) ≤ 10)) := by
  have h := c5_score_bounds [exGame] 1 5 22 10 exGame
    { id := 5, name := some "Song1", artists := ["Band1"], scores := [], played := false }
    (by decide) (by decide) (by decide)
  exact h.1

/-- C10: a score of exactly 0 passes the required-score check (which
tests only for null or undefined) and is appended as a score entry with
value 0: the handler answers success and the saved game carries the
pushed entry. -/
theorem c10_zero_score_accepted (db : List Game) (gid tid uid : Nat)
    (g : Game) (t : GameTrack)
    (hg : findById db gid = some g)
    (ht : g.tracks.find? (fun x => x.id == tid) = some t)
    (hv : validGame g = true) :
    (addScoreHandler db gid tid uid (some 0)).1 ≠ Resp.invalidRequest
  ∧ (addScoreHandler db gid tid uid (some 0)).1 = Resp.success g.id
  ∧ findById (addScoreHandler db gid tid uid (some 0)).2 gid =
      some { g with tracks := pushScoreFirst g.tracks tid { player := uid, score := 0 } } := by
  have hval : validGame { g with tracks := pushScoreFirst g.tracks tid { player := uid, score := 0 } } = true := by
    rw [validGame_pushScore _ ht hv]
    simp [validScore]
  have hsave : trySave db { g with tracks := pushScoreFirst g.tracks tid { player := uid, score := 0 } } =
      Except.ok (saveGame db { g with tracks := pushScoreFirst g.tracks tid { player := uid, score := 0 } }) := by
    rw [trySave, hval]
    simp
  have hred : addScoreHandler db gid tid uid (some 0) =
      (Resp.success g.id,
        saveGame db { g with tracks := pushScoreFirst g.tracks tid { player := uid, score := 0 } }) := by
    simp only [addScoreHandler, hg, ht, hsave, Except.map, runCatch]
  rw [hred]
  exact ⟨by simp, rfl, findById_saveGame _ gid hg rfl⟩

/-- C10 witness: score 0 on the example store is appended and saved. -/
theorem c10_witness :
    (addScoreHandler [exGame] 1 5 22 (some 0)).1 = Resp.success 1 := by
  have h := c10_zero_score_accepted [exGame] 1 5 22 exGame
    { id := 5, name := some "Song1", artists := ["Band1"], scores := [], played := false }
    (by decide) (by decide) (by decide)
  exact h.2.1

/-- C7: when the game exists but no track matches, add-score (with a
present score) and set-played both fault on the unguarded lookup; the
thrown TypeError is not a ValidationError, so the catch answers with the
generic 500 response, never 404. -/
theorem c7_track_not_found_internal (db : List Game) (gid tid uid : Nat) (sc : Int)
    (pb : Option Bool) (g : Game)
    (hg : findById db gid = some g)
    (ht : g.tracks.find? (fun x => x.id == tid) = none) :
    (addScoreHandler db gid tid uid (some sc)).1 = Resp.serverError
  ∧ (playedHandler db gid tid pb).1 = Resp.serverError
  ∧ statusOf (addScoreHandler db gid tid uid (some sc)).1 = 500
  ∧ statusOf (playedHandler db gid tid pb).1 = 500
  ∧ statusOf (addScoreHandler db gid tid uid (some sc)).1 ≠ 404
  ∧ statusOf (playedHandler db gid tid pb).1 ≠ 404 := by
  have h1 : addScoreHandler db gid tid uid (some sc) = (Resp.serverError, db) := by
    simp only [addScoreHandler, hg, ht, runCatch]
  have h2 : playedHandler db gid tid pb = (Resp.serverError, db) := by
    simp only [playedHandler, hg, ht, runCatch]
  rw [h1, h2]
  exact ⟨rfl, rfl, rfl, rfl, by simp [statusOf], by simp [statusOf]⟩

/-- C7 witness: on the example store with an unknown track id both
handlers answer 500. -/
theorem c7_witness :
    (addScoreHandler [exGame] 1 9 22 (some 3)).1 = Resp.serverError
  ∧ (playedHandler [exGame] 1 9 none).1 = Resp.serverError := by
  have h := c7_track_not_found_internal [exGame] 1 9 22 3 none exGame
    (by decide) (by decide)
  exact ⟨h.1, h.2.1⟩

/-- C6 witness: rejoining player 10 of the example game duplicates the
reference and the board carries two entries for that player. -/
theorem c6_witness :
    2 ≤ (joinGame exGame 10).players.count 10
  ∧ 2 ≤ ((getScoreboard (joinGame exGame 10)).board.filter (fun e => e.player == 10)).length := by
  have h := c6_join_appends_duplicate exGame 10 (by decide)
  exact ⟨h.1, h.2.1⟩

/-- C2 counterexample: the claim says an explicit false body sets the
played flag to false, but on a track whose flag is false the handler
stores true: the JS expression body.played OR NOT track.played treats an
explicit false as absent and toggles. -/
theorem c2_counterexample :
    trackInDb (playedHandler [exGame] 1 5 (some false)).2 1 5 =
      some { id := 5, name := some "Song1", artists := ["Band1"],
             scores := [], played := true }
  ∧ ¬ ((trackInDb (playedHandler [exGame] 1 5 (some false)).2 1 5).map
        (fun t => t.played) = some false) := by
  decide

/-- C2 amended: on an existing game and matching track with a valid
document, a supplied value of true sets the played flag to true, while a
supplied value of false or an absent value toggles the flag to the
negation of its current value. -/
theorem c2_amended_set_or_toggle (db : List Game) (gid tid : Nat) (b : Option Bool)
    (g : Game) (t : GameTrack)
    (hg : findById db gid = some g)
    (ht : g.tracks.find? (fun x => x.id == tid) = some t)
    (hv : validGame g = true) :
    trackInDb (playedHandler db gid tid b).2 gid tid =
      some { t with played := if b = some true then true else !t.played } := by
  have hval : validGame { g with tracks := setPlayedFirst g.tracks tid b } = true :=
    validGame_setPlayed tid b hv
  have hsave : trySave db { g with tracks := setPlayedFirst g.tracks tid b } =
      Except.ok (saveGame db { g with tracks := setPlayedFirst g.tracks tid b }) := by
    rw [trySave, hval]
    simp
  have hred : playedHandler db gid tid b =
      (Resp.success g.id, saveGame db { g with tracks := setPlayedFirst g.tracks tid b }) := by
    simp only [playedHandler, hg, ht, hsave, Except.map, runCatch]
  have hjs : jsPlayedValue b t.played = if b = some true then true else !t.played := by
    cases b with
    | none => rfl
    | some bb => cases bb <;> simp [jsPlayedValue]
  rw [hred]
  simp only [trackInDb]
  rw [findById_saveGame { g with tracks := setPlayedFirst g.tracks tid b } gid hg rfl,
    Option.some_bind]
  rw [show ({ g with tracks := setPlayedFirst g.tracks tid b } : Game).tracks
        = setPlayedFirst g.tracks tid b from rfl]
  rw [find?_setPlayedFirst b ht, hjs]

/-- C2 witness: an absent body value toggles the example track from
false to true through the whole handler pipeline. -/
theorem c2_amended_witness :
    trackInDb (playedHandler [exGame] 1 5 none).2 1 5 =
      some { id := 5, name := some "Song1", artists := ["Band1"],
             scores := [], played := true } := by
  have h := c2_amended_set_or_toggle [exGame] 1 5 none exGame
    { id := 5, name := some "Song1", artists := ["Band1"], scores := [], played := false }
    (by decide) (by decide) (by decide)
  simpa using h

/-- Helper for C3: a game owning a track with fewer than 10 scores fails
the src/models/game-model.ts variant validation. -/
theorem validGameV1_false_of_short {g : Game} {t : GameTrack}
    (hmem : t ∈ g.tracks) (hlen : t.scores.length < 10) :
    validGameV1 g = false := by
  have htf : validTrackV1 t = false := by
    have hd : decide (10 ≤ t.scores.length) = false := by
      simp only [decide_eq_false_iff_not]
      omega
    simp [validTrackV1, hd]
  cases hall : g.tracks.all validTrackV1 with
  | false => simp [validGameV1, hall]
  | true =>
    have := List.all_eq_true.mp hall t hmem
    rw [htf] at this
    simp at this

/-- C3: under the src/models/game-model.ts schema variant a track with
fewer than 10 scores invalidates the whole game, and pushing a single
score onto a track with fewer than 9 existing scores still leaves it
below 10, so the save fails with a ValidationError. -/
theorem c3_track_requires_ten_scores (g : Game) (t : GameTrack) (tid uid : Nat) (sc : Int)
    (hfind : g.tracks.find? (fun x => x.id == tid) = some t) :
    (t.scores.length < 10 → validGameV1 g = false)
  ∧ (t.scores.length < 9 →
      validGameV1 { g with tracks := pushScoreFirst g.tracks tid { player := uid, score := sc } } = false
      ∧ ∀ db : List Game,
          trySaveV1 db { g with tracks := pushScoreFirst g.tracks tid { player := uid, score := sc } }
            = Except.error JsThrow.validation) := by
  constructor
  · intro hlen
    exact validGameV1_false_of_short (List.mem_of_find?_eq_some hfind) hlen
  · intro hlen
    have hmem : { t with scores := t.scores ++ [{ player := uid, score := sc }] } ∈
        pushScoreFirst g.tracks tid { player := uid, score := sc } :=
      List.mem_of_find?_eq_some (find?_pushScoreFirst _ hfind)
    have hfalse : validGameV1 { g with tracks := pushScoreFirst g.tracks tid { player := uid, score := sc } } = false := by
      refine validGameV1_false_of_short hmem ?_
      simp only [List.length_append, List.length_cons, List.length_nil]
      omega
    refine ⟨hfalse, fun db => ?_⟩
    rw [trySaveV1, hfalse]
    simp

/-- C3 witness: the example game (its track has no scores) fails the
variant validation, and so does the result of pushing one score. -/
theorem c3_witness :
    validGameV1 exGame = false
  ∧ validGameV1 { exGame with
      tracks := pushScoreFirst exGame.tracks 5 { player := 22, score := 3 } } = false := by
  have h := c3_track_requires_ten_scores exGame
    { id := 5, name := some "Song1", artists := ["Band1"], scores := [], played := false }
    5 22 3 (by decide)
  exact ⟨h.1 (by decide), (h.2 (by decide)).1⟩

theorem playersInv_createHandler (db : List Game) (fid : Nat) (nm ds : Option String)
    (uid : Nat) (h : playersInv db) :
    playersInv (createHandler db fid nm ds uid).2 := by
  simp only [createHandler]
  split
  · simp only [runCatch]
    intro g hg
    rcases List.mem_append.mp hg with h' | h'
    · exact h g h'
    · rcases List.mem_singleton.mp h' with rfl
      simp
  · simp only [runCatch]
    exact h

theorem playersInv_joinHandler (db : List Game) (gid uid : Nat) (h : playersInv db) :
    playersInv (joinHandler db gid uid).2 := by
  cases hfind : findById db gid with
  | none =>
    simp only [joinHandler, hfind, runCatch]
    exact h
  | some g =>
    cases hs : trySave db (joinGame g uid) with
    | ok db' =>
      simp only [joinHandler, hfind, hs, Except.map, runCatch]
      exact playersInv_trySave h hs
    | error e =>
      cases e <;> simp only [joinHandler, hfind, hs, Except.map, runCatch] <;> exact h

theorem playersInv_addTrackHandler (db : List Game) (gid tid : Nat) (tn : Option String)
    (ar : List String) (h : playersInv db) :
    playersInv (addTrackHandler db gid tid tn ar).2 := by
  cases hfind : findById db gid with
  | none =>
    simp only [addTrackHandler, hfind, runCatch]
    exact h
  | some g =>
    cases hs : trySave db { g with tracks := g.tracks ++
        [{ id := tid, name := tn, artists := ar, scores := [], played := false }] } with
    | ok db' =>
      simp only [addTrackHandler, hfind, hs, Except.map, runCatch]
      exact playersInv_trySave h hs
    | error e =>
      cases e <;> simp only [addTrackHandler, hfind, hs, Except.map, runCatch] <;> exact h

theorem playersInv_addScoreHandler (db : List Game) (gid tid uid : Nat) (sc : Option Int)
    (h : playersInv db) :
    playersInv (addScoreHandler db gid tid uid sc).2 := by
  cases sc with
  | none =>
    simp only [addScoreHandler, runCatch]
    exact h
  | some v =>
    cases hfind : findById db gid with
    | none =>
      simp only [addScoreHandler, hfind, runCatch]
      exact h
    | some g =>
      cases htr : g.tracks.find? (fun t => t.id == tid) with
      | none =>
        simp only [addScoreHandler, hfind, htr, runCatch]
        exact h
      | some t =>
        cases hs : trySave db { g with
            tracks := pushScoreFirst g.tracks tid { player := uid, score := v } } with
        | ok db' =>
          simp only [addScoreHandler, hfind, htr, hs, Except.map, runCatch]
          exact playersInv_trySave h hs
        | error e =>
          cases e <;> simp only [addScoreHandler, hfind, htr, hs, Except.map, runCatch] <;>
            exact h

theorem playersInv_playedHandler (db : List Game) (gid tid : Nat) (pb : Option Bool)
    (h : playersInv db) :
    playersInv (playedHandler db gid tid pb).2 := by
  cases hfind : findById db gid with
  | none =>
    simp only [playedHandler, hfind, runCatch]
    exact h
  | some g =>
    cases htr : g.tracks.find? (fun t => t.id == tid) with
    | none =>
      simp only [playedHandler, hfind, htr, runCatch]
      exact h
    | some t =>
      cases hs : trySave db { g with tracks := setPlayedFirst g.tracks tid pb } with
      | ok db' =>
        simp only [playedHandler, hfind, htr, hs, Except.map, runCatch]
        exact playersInv_trySave h hs
      | error e =>
        cases e <;> simp only [playedHandler, hfind, htr, hs, Except.map, runCatch] <;>
          exact h

/-- C4: the player invariant. A game with an empty players array fails
validation and its save throws a ValidationError, and every mutating
handler (create with one initial player, join, addTrack, addScore,
setPlayed) preserves the invariant that every stored game has at least
one player. -/
theorem c4_player_invariant (db : List Game) (fid gid tid uid : Nat)
    (nm ds tn : Option String) (ar : List String) (sc : Option Int) (pb : Option Bool)
    (hinv : playersInv db) :
    (∀ g : Game, g.players = [] →
        validGame g = false ∧
        ∀ db2 : List Game, trySave db2 g = Except.error JsThrow.validation)
  ∧ playersInv (createHandler db fid nm ds uid).2
  ∧ playersInv (joinHandler db gid uid).2
  ∧ playersInv (addTrackHandler db gid tid tn ar).2
  ∧ playersInv (addScoreHandler db gid tid uid sc).2
  ∧ playersInv (playedHandler db gid tid pb).2 := by
  refine ⟨?_, playersInv_createHandler db fid nm ds uid hinv,
    playersInv_joinHandler db gid uid hinv,
    playersInv_addTrackHandler db gid tid tn ar hinv,
    playersInv_addScoreHandler db gid tid uid sc hinv,
    playersInv_playedHandler db gid tid pb hinv⟩
  intro g hgp
  have hfalse : validGame g = false := by
    simp [validGame, hgp]
  refine ⟨hfalse, fun db2 => ?_⟩
  rw [trySave, hfalse]
  simp

/-- C4 witness: the invariant holds on the example store after a join. -/
theorem c4_witness : playersInv (joinHandler [exGame] 1 99).2 := by
  have h := c4_player_invariant [exGame] 2 1 5 99 none none none [] none none
    (by intro g hg; rcases List.mem_singleton.mp hg with rfl; decide)
  exact h.2.2.1
